import Mathlib

/-!
Shallow embedding of the tic-tac-toe game logic from `src/client/src/App.tsx`.

The source is a React component; its game logic consists of the constant
`LINES`, the pure function `getWinner`, the derived values `draw`, `gameOver`
and `status`, and the event handlers `playAt`, `resetGame` and `onKeyDown`.
Cells are `"X" | "O" | null`, modelled as `Option Player`; a board is the
JavaScript array of cells, modelled as a `List Cell` where an out-of-range
read (`board[idx]` yielding `undefined`, which is falsy like `null`) is
modelled by `List.getD _ none`, and the JavaScript array write
`next[idx] = v` (which appends or pads when `idx ≥ length`) is modelled by
`jsSet`.
-/

namespace TicTacToe

/-- The two players, `"X" | "O"` in the source. -/
inductive Player where
  | X
  | O
  deriving DecidableEq

/-- Rendering of a player into its mark string, as in `Player ${p}`. -/
def Player.toString : Player → String
  | .X => "X"
  | .O => "O"

/-- One cell of the board: `Player | null`. `none` is the empty cell. -/
abbrev Cell := Option Player

/-- The board: the JavaScript array of cells (9 entries in normal use). -/
abbrev Board := List Cell

/-- An index triple, one of the potential win lines. -/
abbrev Line := Nat × Nat × Nat

/-- The JavaScript read `board[i]`: out of range it yields `undefined`, which
the source only ever uses as a falsy value, like an empty cell. -/
def cellAt (board : Board) (i : Nat) : Cell :=
  board.getD i none

/-- The constant `LINES`: 3 rows, 3 columns, 2 diagonals, in source order. -/
def LINES : List Line :=
  [(0, 1, 2), (3, 4, 5), (6, 7, 8), (0, 3, 6), (1, 4, 7), (2, 5, 8), (0, 4, 8), (2, 4, 6)]

/-- The body of the loop in `getWinner` for a single line `[a, b, c]`:
`const v = board[a]; if (v && v === board[b] && v === board[c])
return { winner: v, line }`. -/
def checkLine (board : Board) (l : Line) : Option (Player × Line) :=
  match cellAt board l.1 with
  | none => none
  | some v =>
    if cellAt board l.2.1 = some v ∧ cellAt board l.2.2 = some v then
      some (v, l)
    else
      none

/-- `getWinner`: scan `LINES` in order, returning the first line whose three
cells hold the same non-empty mark, together with that mark. -/
def getWinner (board : Board) : Option (Player × Line) :=
  LINES.findSome? (checkLine board)

/-- `draw = board.every((c) => c !== null) && !winnerInfo`. -/
def draw (board : Board) : Bool :=
  board.all (fun c => c.isSome) && (getWinner board).isNone

/-- `gameOver = Boolean(winnerInfo) || draw`. -/
def gameOver (board : Board) : Bool :=
  (getWinner board).isSome || draw board

/-- The derived outcome of a board: the evaluator of the spec, assembled from
`getWinner` and the full-board draw check exactly as the component derives
`winnerInfo` and `draw`. -/
inductive Outcome where
  | Win (p : Player) (line : Line)
  | Draw
  | None
  deriving DecidableEq

/-- `evaluate`: `getWinner` plus the full-board draw check. -/
def evaluate (board : Board) : Outcome :=
  match getWinner board with
  | some (p, l) => Outcome.Win p l
  | none => if board.all (fun c => c.isSome) then Outcome.Draw else Outcome.None

/-- The component state: `board` and `current` (the player to move). -/
structure GameState where
  board : Board
  currentPlayer : Player
  deriving DecidableEq

/-- The initial state: `Array(9).fill(null)` and `"X"`. -/
def initialState : GameState :=
  { board := List.replicate 9 none, currentPlayer := Player.X }

/-- `resetGame`: `setBoard(Array(9).fill(null)); setCurrent("X")`, ignoring
the prior state. -/
def resetGame (_s : GameState) : GameState :=
  { board := List.replicate 9 none, currentPlayer := Player.X }

/-- The update `(p) => (p === "X" ? "O" : "X")`. -/
def flipPlayer : Player → Player
  | .X => .O
  | .O => .X

/-- The JavaScript array write `next[idx] = v` on a copy of the board: within
range it overwrites; at or past the end it pads with `undefined` holes
(read back as empty) and stores `v` at position `idx`. -/
def jsSet (l : List Cell) (idx : Nat) (v : Cell) : List Cell :=
  if idx < l.length then l.set idx v
  else l ++ List.replicate (idx - l.length) none ++ [v]

/-- `playAt`: `if (gameOver || board[idx]) return` (JavaScript truthiness of
a cell is `isSome`), else write the current mark at `idx` and flip the
current player. -/
def playAt (s : GameState) (idx : Nat) : GameState :=
  if gameOver s.board || (cellAt s.board idx).isSome then s
  else
    { board := jsSet s.board idx (some s.currentPlayer),
      currentPlayer := flipPlayer s.currentPlayer }

/-- The derived `status` string:
`winnerInfo ? Player _ wins : draw ? Draw game : Player _ turn`. -/
def status (s : GameState) : String :=
  match getWinner s.board with
  | some (p, _) => "Player " ++ p.toString ++ " wins"
  | none =>
    if draw s.board then "Draw game"
    else "Player " ++ s.currentPlayer.toString ++ "\x27s turn"

/-- Model of `e.key.toLowerCase()` for the keys the handler inspects
(ASCII case folding). -/
def keyLower (k : String) : String :=
  ⟨k.data.map Char.toLower⟩

/-- The `onKeyDown` handler: `if (k === "r") resetGame()`, where `k` is the
lowered key; any other key leaves the state alone. -/
def onKeyDown (s : GameState) (key : String) : GameState :=
  if keyLower key = "r" then resetGame s else s

/-- Spec-side predicate: line `l` is a winning line for `p` on `board`
(three identical non-empty marks along `l`). -/
abbrev LineWins (board : Board) (l : Line) (p : Player) : Prop :=
  cellAt board l.1 = some p ∧ cellAt board l.2.1 = some p ∧
    cellAt board l.2.2 = some p

/-- States reachable from the initial state through the two transition
functions, cell clicks carrying an index in `0..8`. -/
inductive Reachable : GameState → Prop where
  | init : Reachable initialState
  | play : ∀ s idx, Reachable s → idx < 9 → Reachable (playAt s idx)
  | reset : ∀ s, Reachable s → Reachable (resetGame s)

/-- Number of cells of `board` holding the mark of `p`. -/
def countMarks (p : Player) (board : Board) : Nat :=
  board.countP (fun c => c == some p)

/-! ### Helper lemmas -/

theorem findSome?_eq_some_iff {α β : Type} (f : α → Option β) (l : List α) (b : β) :
    l.findSome? f = some b ↔
      ∃ pre a post, l = pre ++ a :: post ∧ f a = some b ∧ ∀ x ∈ pre, f x = none := by
  induction l with
  | nil =>
    simp [List.findSome?]
  | cons x xs ih =>
    cases h : f x with
    | some c =>
      simp only [List.findSome?, h, Option.some.injEq]
      constructor
      · rintro rfl
        exact ⟨[], x, xs, rfl, h, by simp⟩
      · rintro ⟨pre, a, post, heq, hfa, hpre⟩
        cases pre with
        | nil =>
          simp at heq
          obtain ⟨rfl, rfl⟩ := heq
          rw [h] at hfa
          exact (Option.some.injEq _ _).mp hfa
        | cons y pre =>
          simp at heq
          obtain ⟨rfl, -⟩ := heq
          have := hpre x (by simp)
          rw [h] at this
          exact absurd this (by simp)
    | none =>
      simp only [List.findSome?, h, ih]
      constructor
      · rintro ⟨pre, a, post, heq, hfa, hpre⟩
        refine ⟨x :: pre, a, post, by simp [heq], hfa, ?_⟩
        intro z hz
        rcases List.mem_cons.mp hz with rfl | hz
        · exact h
        · exact hpre z hz
      · rintro ⟨pre, a, post, heq, hfa, hpre⟩
        cases pre with
        | nil =>
          simp at heq
          obtain ⟨rfl, rfl⟩ := heq
          rw [h] at hfa
          exact absurd hfa (by simp)
        | cons y pre =>
          simp at heq
          obtain ⟨rfl, heq⟩ := heq
          exact ⟨pre, a, post, heq, hfa, fun z hz => hpre z (by simp [hz])⟩

theorem findSome?_eq_none_iff {α β : Type} (f : α → Option β) (l : List α) :
    l.findSome? f = none ↔ ∀ x ∈ l, f x = none := by
  induction l with
  | nil => simp [List.findSome?]
  | cons x xs ih =>
    cases h : f x with
    | some c => simp [List.findSome?, h]
    | none => simp [List.findSome?, h, ih]

theorem cellAt_nil (i : Nat) : cellAt [] i = none := by
  cases i <;> rfl

theorem cellAt_cons_zero (c : Cell) (rest : List Cell) : cellAt (c :: rest) 0 = c := rfl

theorem cellAt_cons_succ (c : Cell) (rest : List Cell) (n : Nat) :
    cellAt (c :: rest) (n + 1) = cellAt rest n := rfl

theorem checkLine_eq_some (board : Board) (l : Line) (r : Player × Line) :
    checkLine board l = some r ↔ LineWins board l r.1 ∧ r.2 = l := by
  obtain ⟨p, l2⟩ := r
  show checkLine board l = some (p, l2) ↔
    (cellAt board l.1 = some p ∧ cellAt board l.2.1 = some p ∧ cellAt board l.2.2 = some p) ∧
      l2 = l
  unfold checkLine
  cases h : cellAt board l.1 with
  | none => simp
  | some v =>
    show (if cellAt board l.2.1 = some v ∧ cellAt board l.2.2 = some v then
        some (v, l) else none) = some (p, l2) ↔
      (some v = some p ∧ cellAt board l.2.1 = some p ∧ cellAt board l.2.2 = some p) ∧ l2 = l
    by_cases h2 : cellAt board l.2.1 = some v ∧ cellAt board l.2.2 = some v
    · rw [if_pos h2]
      simp only [Option.some.injEq, Prod.mk.injEq]
      constructor
      · rintro ⟨rfl, rfl⟩
        exact ⟨⟨rfl, h2.1, h2.2⟩, rfl⟩
      · rintro ⟨⟨hvp, -, -⟩, rfl⟩
        exact ⟨hvp, rfl⟩
    · rw [if_neg h2]
      constructor
      · intro hfalse
        exact absurd hfalse (by simp)
      · rintro ⟨⟨hvp, hb, hc⟩, rfl⟩
        obtain rfl := Option.some_inj.mp hvp
        exact absurd ⟨hb, hc⟩ h2

theorem checkLine_eq_none (board : Board) (l : Line) :
    checkLine board l = none ↔ ∀ p, ¬ LineWins board l p := by
  cases hc : checkLine board l with
  | none =>
    constructor
    · intro _ p hw
      have hsome := (checkLine_eq_some board l (p, l)).mpr ⟨hw, rfl⟩
      rw [hc] at hsome
      exact absurd hsome (by simp)
    · intro _
      rfl
  | some r =>
    constructor
    · intro hfalse
      exact absurd hfalse (by simp)
    · intro hall
      exact absurd ((checkLine_eq_some board l r).mp hc).1 (hall r.1)

theorem cellAt_set_self (l : List Cell) (i : Nat) (v : Cell) (h : i < l.length) :
    cellAt (l.set i v) i = v := by
  induction l generalizing i with
  | nil => simp at h
  | cons c rest ih =>
    cases i with
    | zero => rfl
    | succ n =>
      show cellAt (rest.set n v) n = v
      exact ih n (by simpa using h)

theorem cellAt_set_ne (l : List Cell) (i j : Nat) (v : Cell) (h : j ≠ i) :
    cellAt (l.set i v) j = cellAt l j := by
  induction l generalizing i j with
  | nil => cases i <;> rfl
  | cons c rest ih =>
    cases i with
    | zero =>
      cases j with
      | zero => exact absurd rfl h
      | succ m => rfl
    | succ n =>
      cases j with
      | zero => rfl
      | succ m =>
        show cellAt (rest.set n v) m = cellAt rest m
        exact ih n m (fun he => h (by rw [he]))

theorem countMarks_set (p q : Player) (l : List Cell) (idx : Nat)
    (hempty : cellAt l idx = none) (hlt : idx < l.length) :
    countMarks p (l.set idx (some q)) = countMarks p l + (if q = p then 1 else 0) := by
  induction l generalizing idx with
  | nil => simp at hlt
  | cons c rest ih =>
    cases idx with
    | zero =>
      have hc : c = none := hempty
      subst hc
      simp only [List.set, countMarks, List.countP_cons]
      by_cases hqp : q = p <;> simp [hqp]
    | succ n =>
      have hre : cellAt rest n = none := hempty
      have hlt2 : n < rest.length := by simpa using hlt
      have hih := ih n hre hlt2
      simp only [countMarks, List.set, List.countP_cons] at hih ⊢
      omega

theorem gameOver_eq_false_iff (board : Board) :
    gameOver board = false ↔ evaluate board = Outcome.None := by
  unfold gameOver draw evaluate
  cases h : getWinner board with
  | none => cases h2 : board.all (fun c => c.isSome) <;> simp [h, h2]
  | some r => simp [h]

theorem gameOver_eq_true_iff (board : Board) :
    gameOver board = true ↔
      (∃ p l, evaluate board = Outcome.Win p l) ∨ evaluate board = Outcome.Draw := by
  unfold gameOver draw evaluate
  cases h : getWinner board with
  | none => cases h2 : board.all (fun c => c.isSome) <;> simp [h, h2]
  | some r => simp [h]

theorem getWinner_eq_some_iff (board : Board) (r : Player × Line) :
    getWinner board = some r ↔
      ∃ pre a post, LINES = pre ++ a :: post ∧ checkLine board a = some r ∧
        ∀ x ∈ pre, checkLine board x = none := by
  unfold getWinner
  exact findSome?_eq_some_iff (checkLine board) LINES r

theorem getWinner_eq_none_iff (board : Board) :
    getWinner board = none ↔ ∀ l ∈ LINES, ∀ p, ¬ LineWins board l p := by
  unfold getWinner
  rw [findSome?_eq_none_iff]
  constructor
  · intro h l hl p
    exact (checkLine_eq_none board l).mp (h l hl) p
  · intro h l hl
    exact (checkLine_eq_none board l).mpr (fun p => h l hl p)

theorem getWinner_wins (board : Board) (r : Player × Line) (h : getWinner board = some r) :
    r.2 ∈ LINES ∧ LineWins board r.2 r.1 := by
  obtain ⟨pre, a, post, hsplit, hc, -⟩ := (getWinner_eq_some_iff board r).mp h
  obtain ⟨hw, h2⟩ := (checkLine_eq_some board a r).mp hc
  constructor
  · rw [h2, hsplit]
    simp
  · rw [h2]
    exact hw

theorem evaluate_eq_win_iff (board : Board) (p : Player) (l : Line) :
    evaluate board = Outcome.Win p l ↔ getWinner board = some (p, l) := by
  unfold evaluate
  cases hw : getWinner board with
  | none => cases ha : board.all (fun c => c.isSome) <;> simp [ha]
  | some r =>
    obtain ⟨q, l2⟩ := r
    simp

theorem evaluate_eq_draw_iff (board : Board) :
    evaluate board = Outcome.Draw ↔
      getWinner board = none ∧ board.all (fun c => c.isSome) = true := by
  unfold evaluate
  cases hw : getWinner board with
  | none => cases ha : board.all (fun c => c.isSome) <;> simp [ha]
  | some r =>
    obtain ⟨q, l2⟩ := r
    simp

theorem evaluate_eq_none_iff (board : Board) :
    evaluate board = Outcome.None ↔
      getWinner board = none ∧ board.all (fun c => c.isSome) = false := by
  unfold evaluate
  cases hw : getWinner board with
  | none => cases ha : board.all (fun c => c.isSome) <;> simp [ha]
  | some r =>
    obtain ⟨q, l2⟩ := r
    simp

/-! ### Claim theorems -/

/-- C1: over 9-cell boards, the evaluator (`getWinner` plus the full-board
draw check, packaged as `evaluate`) returns `Win` exactly on the boards with
three identical non-empty marks along one of the 8 fixed lines — and the line
it reports is such a line — returns `Draw` on fully-filled boards with no
such line, and returns `None` on every other board. -/
theorem evaluate_classifies (board : Board) (_h9 : board.length = 9) :
    (∀ p l, evaluate board = Outcome.Win p l → l ∈ LINES ∧ LineWins board l p) ∧
    ((∃ l ∈ LINES, ∃ p, LineWins board l p) → ∃ p l, evaluate board = Outcome.Win p l) ∧
    ((∀ l ∈ LINES, ∀ p, ¬ LineWins board l p) → board.all (fun c => c.isSome) = true →
      evaluate board = Outcome.Draw) ∧
    ((∀ l ∈ LINES, ∀ p, ¬ LineWins board l p) → board.all (fun c => c.isSome) = false →
      evaluate board = Outcome.None) := by
  refine ⟨?_, ?_, ?_, ?_⟩
  · intro p l hev
    exact getWinner_wins board (p, l) ((evaluate_eq_win_iff board p l).mp hev)
  · rintro ⟨l, hl, p, hw⟩
    cases hg : getWinner board with
    | none => exact absurd hw ((getWinner_eq_none_iff board).mp hg l hl p)
    | some r => exact ⟨r.1, r.2, (evaluate_eq_win_iff board r.1 r.2).mpr hg⟩
  · intro hnone hall
    exact (evaluate_eq_draw_iff board).mpr ⟨(getWinner_eq_none_iff board).mpr hnone, hall⟩
  · intro hnone hnotall
    exact (evaluate_eq_none_iff board).mpr ⟨(getWinner_eq_none_iff board).mpr hnone, hnotall⟩

/-- Witness for C1: on the board with an `X` top row, the evaluator returns
a `Win`. -/
theorem evaluate_classifies_witness :
    [some Player.X, some Player.X, some Player.X,
      none, none, none, none, none, none].length = 9 ∧
    ∃ p l, evaluate [some Player.X, some Player.X, some Player.X,
      none, none, none, none, none, none] = Outcome.Win p l :=
  ⟨by decide,
    (evaluate_classifies [some Player.X, some Player.X, some Player.X,
        none, none, none, none, none, none] (by decide)).2.1
      ⟨(0, 1, 2), by decide, Player.X, by decide⟩⟩

/-- C6: the tested lines are, in order, the 3 rows top-to-bottom, the 3
columns left-to-right, then the two diagonals, and `getWinner` returns
`some r` exactly when the line of `r` wins and every line strictly before it in
that order does not win for any player — the first matching line. -/
theorem getWinner_first_line (board : Board) (r : Player × Line) :
    LINES = [(0, 1, 2), (3, 4, 5), (6, 7, 8), (0, 3, 6), (1, 4, 7), (2, 5, 8),
      (0, 4, 8), (2, 4, 6)] ∧
    (getWinner board = some r ↔
      ∃ pre post, LINES = pre ++ r.2 :: post ∧ LineWins board r.2 r.1 ∧
        ∀ l ∈ pre, ∀ q, ¬ LineWins board l q) := by
  refine ⟨rfl, ?_⟩
  rw [getWinner_eq_some_iff]
  constructor
  · rintro ⟨pre, a, post, hsplit, hc, hpre⟩
    obtain ⟨hw, h2⟩ := (checkLine_eq_some board a r).mp hc
    refine ⟨pre, post, ?_, ?_, ?_⟩
    · rw [h2]
      exact hsplit
    · rw [h2]
      exact hw
    · intro l hl q
      exact (checkLine_eq_none board l).mp (hpre l hl) q
  · rintro ⟨pre, post, hsplit, hw, hpre⟩
    refine ⟨pre, r.2, post, hsplit, ?_, ?_⟩
    · exact (checkLine_eq_some board r.2 r).mpr ⟨hw, rfl⟩
    · intro x hx
      exact (checkLine_eq_none board x).mpr (hpre x hx)

/-- C2: when the game is already over (the evaluator yields a win, or the
board is full with no winner, i.e. a draw) or the target cell is non-empty,
`playAt` returns the input state itself — a silent no-op, never an error. -/
theorem playAt_rejects (s : GameState) (idx : Nat) (_hidx : idx < 9)
    (h : (∃ p l, evaluate s.board = Outcome.Win p l) ∨ evaluate s.board = Outcome.Draw ∨
      (cellAt s.board idx).isSome = true) :
    playAt s idx = s := by
  have hcond : (gameOver s.board || (cellAt s.board idx).isSome) = true := by
    rw [Bool.or_eq_true]
    rcases h with h | h | h
    · exact Or.inl ((gameOver_eq_true_iff s.board).mpr (Or.inl h))
    · exact Or.inl ((gameOver_eq_true_iff s.board).mpr (Or.inr h))
    · exact Or.inr h
  unfold playAt
  rw [if_pos hcond]

/-- Witness for C2: clicking the occupied cell 0 leaves the state unchanged. -/
theorem playAt_rejects_witness :
    playAt ⟨[some Player.X, none, none, none, none, none, none, none, none], Player.O⟩ 0 =
      ⟨[some Player.X, none, none, none, none, none, none, none, none], Player.O⟩ :=
  playAt_rejects ⟨[some Player.X, none, none, none, none, none, none, none, none], Player.O⟩
    0 (by decide) (Or.inr (Or.inr (by decide)))

/-- C3: an accepted move (game not over, target cell empty, index in range)
writes the mark of the current player at the target index, leaves every other
cell unchanged, and keeps the board at 9 cells. -/
theorem playAt_accepts_effect (s : GameState) (idx : Nat) (h9 : s.board.length = 9)
    (hidx : idx < 9) (hov : evaluate s.board = Outcome.None)
    (hcell : cellAt s.board idx = none) :
    cellAt (playAt s idx).board idx = some s.currentPlayer ∧
    (∀ j, j ≠ idx → cellAt (playAt s idx).board j = cellAt s.board j) ∧
    (playAt s idx).board.length = 9 := by
  have hgo : gameOver s.board = false := (gameOver_eq_false_iff s.board).mpr hov
  have hcond : (gameOver s.board || (cellAt s.board idx).isSome) = false := by
    rw [hgo, hcell]
    rfl
  have hlt : idx < s.board.length := by
    rw [h9]
    exact hidx
  have hset : (playAt s idx).board = s.board.set idx (some s.currentPlayer) := by
    simp [playAt, hcond, jsSet, hlt]
  refine ⟨?_, ?_, ?_⟩
  · rw [hset]
    exact cellAt_set_self s.board idx (some s.currentPlayer) hlt
  · intro j hj
    rw [hset]
    exact cellAt_set_ne s.board idx j (some s.currentPlayer) hj
  · rw [hset, List.length_set]
    exact h9

/-- Witness for C3: the first move at the centre of the empty board. -/
theorem playAt_accepts_effect_witness :
    cellAt (playAt initialState 4).board 4 = some Player.X ∧
    cellAt (playAt initialState 4).board 0 = cellAt initialState.board 0 ∧
    (playAt initialState 4).board.length = 9 := by
  have h := playAt_accepts_effect initialState 4 (by decide) (by decide) (by decide) (by decide)
  exact ⟨h.1, h.2.1 0 (by decide), h.2.2⟩

/-- C4: an accepted move flips the current player, `X` to `O` and `O` to
`X`. -/
theorem playAt_flips (s : GameState) (idx : Nat)
    (hov : evaluate s.board = Outcome.None) (hcell : cellAt s.board idx = none) :
    (playAt s idx).currentPlayer = flipPlayer s.currentPlayer ∧
    flipPlayer Player.X = Player.O ∧ flipPlayer Player.O = Player.X := by
  have hgo : gameOver s.board = false := (gameOver_eq_false_iff s.board).mpr hov
  have hcond : (gameOver s.board || (cellAt s.board idx).isSome) = false := by
    rw [hgo, hcell]
    rfl
  refine ⟨?_, rfl, rfl⟩
  simp [playAt, hcond]

/-- Witness for C4: after the first move it is the turn of `O`. -/
theorem playAt_flips_witness :
    (playAt initialState 4).currentPlayer = flipPlayer initialState.currentPlayer ∧
    flipPlayer Player.X = Player.O ∧ flipPlayer Player.O = Player.X :=
  playAt_flips initialState 4 (by decide) (by decide)

/-- C5: `resetGame` yields the canonical initial state — all 9 cells empty
and `X` to move — unconditionally, for every prior state. -/
theorem resetGame_canonical (s : GameState) :
    resetGame s = initialState ∧
    (resetGame s).board = List.replicate 9 none ∧
    (resetGame s).currentPlayer = Player.X :=
  ⟨rfl, rfl, rfl⟩

/-- C7: the derived status string is a pure projection of the state: the
win message when the evaluator yields a win, the draw message on a draw,
and the turn message otherwise. -/
theorem status_projection (s : GameState) :
    status s =
      (match evaluate s.board with
        | Outcome.Win p _ => "Player " ++ p.toString ++ " wins"
        | Outcome.Draw => "Draw game"
        | Outcome.None => "Player " ++ s.currentPlayer.toString ++ "\x27s turn") := by
  unfold status evaluate draw
  cases hw : getWinner s.board with
  | some r =>
    obtain ⟨p, l⟩ := r
    rfl
  | none =>
    cases ha : s.board.all (fun c => c.isSome) <;> rfl

/-- C8: a keydown whose key is `"r"` or `"R"` performs exactly the restart
transition: the handler result equals the `resetGame` result, the canonical
initial state. -/
theorem keydown_restart (s : GameState) (key : String) (h : key = "r" ∨ key = "R") :
    onKeyDown s key = resetGame s ∧ onKeyDown s key = initialState := by
  rcases h with rfl | rfl
  · exact ⟨rfl, rfl⟩
  · exact ⟨rfl, rfl⟩

/-- Witness for C8: pressing `R` mid-game restarts to the initial state. -/
theorem keydown_restart_witness :
    onKeyDown ⟨[some Player.X, none, none, none, none, none, none, none, none], Player.O⟩ "R" =
      resetGame ⟨[some Player.X, none, none, none, none, none, none, none, none], Player.O⟩ ∧
    onKeyDown ⟨[some Player.X, none, none, none, none, none, none, none, none], Player.O⟩ "R" =
      initialState :=
  keydown_restart ⟨[some Player.X, none, none, none, none, none, none, none, none], Player.O⟩
    "R" (Or.inr rfl)

/-- C9: every state reachable from the initial state via `playAt` (indices
`0..8`) and `resetGame` has a 9-cell board, the count of `X` marks exceeds
the count of `O` marks by 0 or 1, and the current player is `X` exactly when
the counts are equal. -/
theorem reachable_invariant (s : GameState) (h : Reachable s) :
    s.board.length = 9 ∧
    ((countMarks Player.X s.board = countMarks Player.O s.board ∧
        s.currentPlayer = Player.X) ∨
      (countMarks Player.X s.board = countMarks Player.O s.board + 1 ∧
        s.currentPlayer = Player.O)) := by
  induction h with
  | init => exact ⟨rfl, Or.inl ⟨rfl, rfl⟩⟩
  | reset t _ _ => exact ⟨rfl, Or.inl ⟨rfl, rfl⟩⟩
  | play t idx _ hidx ih =>
    cases hb : (gameOver t.board || (cellAt t.board idx).isSome) with
    | true =>
      have hps : playAt t idx = t := by
        unfold playAt
        rw [if_pos hb]
      rw [hps]
      exact ih
    | false =>
      have hcell : cellAt t.board idx = none := by
        rcases Bool.or_eq_false_iff.mp hb with ⟨-, h2⟩
        cases hc : cellAt t.board idx with
        | none => rfl
        | some v =>
          rw [hc] at h2
          exact absurd h2 (by simp)
      have hlt : idx < t.board.length := by
        rw [ih.1]
        exact hidx
      have hnottrue : ¬ ((gameOver t.board || (cellAt t.board idx).isSome) = true) := by
        rw [hb]
        simp
      have hboard : (playAt t idx).board = t.board.set idx (some t.currentPlayer) := by
        unfold playAt
        rw [if_neg hnottrue]
        simp [jsSet, hlt]
      have hcp : (playAt t idx).currentPlayer = flipPlayer t.currentPlayer := by
        unfold playAt
        rw [if_neg hnottrue]
      have hX := countMarks_set Player.X t.currentPlayer t.board idx hcell hlt
      have hO := countMarks_set Player.O t.currentPlayer t.board idx hcell hlt
      refine ⟨by rw [hboard, List.length_set]; exact ih.1, ?_⟩
      rw [hboard, hcp]
      rcases ih.2 with ⟨hcnt, hcur⟩ | ⟨hcnt, hcur⟩
      · right
        rw [hcur] at hX hO ⊢
        rw [hX, hO, hcnt]
        simp [flipPlayer]
      · left
        rw [hcur] at hX hO ⊢
        rw [hX, hO, hcnt]
        simp [flipPlayer]

/-- Witness for C9: the invariant instantiated at the initial state. -/
theorem reachable_invariant_witness :
    initialState.board.length = 9 ∧
    ((countMarks Player.X initialState.board = countMarks Player.O initialState.board ∧
        initialState.currentPlayer = Player.X) ∨
      (countMarks Player.X initialState.board =
          countMarks Player.O initialState.board + 1 ∧
        initialState.currentPlayer = Player.O)) :=
  reachable_invariant initialState Reachable.init

/-- C10: `playAt` has no range check: at index 9 on the fresh board the
occupied-cell guard does not fire (the out-of-range read is empty), the
mark of the current player is written at position 9, the state changes, and the
board grows to 10 cells. -/
theorem playAt_no_range_check :
    gameOver initialState.board = false ∧
    cellAt initialState.board 9 = none ∧
    playAt initialState 9 ≠ initialState ∧
    (playAt initialState 9).board.length = 10 ∧
    cellAt (playAt initialState 9).board 9 = some Player.X ∧
    (playAt initialState 9).currentPlayer = Player.O := by
  decide

end TicTacToe
